import Mathlib

/-!
Shallow embedding of the `ldesign-webfont` font transcoder core:
the signature sniffer (`detectFormat`), the WOFF decoder (`decompressWoff`),
the WOFF encoder (`compressWoff`), the transcode orchestrator (`convertFont`)
and the subsetter entry points (`subsetFont`, `subsetFontWithStats`).

Buffers are lists of natural numbers; a byte is read modulo 256
(on real Node `Buffer`s every cell is `< 256`, so the reduction is the
identity on the actual domain).  `Buffer.readUIntNBE` returns `none` where
Node throws a `RangeError`; `Buffer.slice` clamps, as in Node.  External
collaborators (pako's deflate/inflate, wawoff2, opentype.js, fontmin) are
parameters of the embedded functions.
-/

abbrev Buffer := List Nat

deriving instance DecidableEq for Except

/-- Fuel-driven floor of the base-2 logarithm (structural so that the
kernel can evaluate it). -/
def floorLog2Aux : Nat → Nat → Nat
  | 0, _ => 0
  | fuel + 1, n => if 2 ≤ n then floorLog2Aux fuel (n / 2) + 1 else 0

/-- `Math.floor(Math.log2(n))` for `n ≥ 1` (callers guard `n = 0`, where
JS produces `-Infinity` and the subsequent write throws). -/
def floorLog2 (n : Nat) : Nat := floorLog2Aux n n

/-- `buffer[i]` as a byte (Node buffers store bytes; out of range reads 0
only where the embedding is never used out of bounds). -/
def byteAt (b : Buffer) (i : Nat) : Nat := b.getD i 0 % 256

/-- `buffer.slice(start, stop)` — clamps at the buffer end, never throws. -/
def bufSlice (b : Buffer) (start stop : Nat) : Buffer := (b.take stop).drop start

/-- `buffer.readUInt16BE(off)`; `none` models the `RangeError` Node throws
when fewer than 2 bytes are available at `off`. -/
def readUInt16BE (b : Buffer) (off : Nat) : Option Nat :=
  if off + 2 ≤ b.length then
    some (byteAt b off * 256 + byteAt b (off + 1))
  else none

/-- `buffer.readUInt32BE(off)`; `none` models the `RangeError` Node throws
when fewer than 4 bytes are available at `off`. -/
def readUInt32BE (b : Buffer) (off : Nat) : Option Nat :=
  if off + 4 ≤ b.length then
    some (byteAt b off * 0x1000000 + byteAt b (off + 1) * 0x10000 +
          byteAt b (off + 2) * 0x100 + byteAt b (off + 3))
  else none

/-- Big-endian 16-bit serialization (`writeUInt16BE`); callers guard the
`value ≤ 0xFFFF` bound that Node enforces by throwing. -/
def toU16 (v : Nat) : Buffer := [v / 256 % 256, v % 256]

/-- Big-endian 32-bit serialization (`writeUInt32BE`); callers guard the
`value ≤ 0xFFFFFFFF` bound that Node enforces by throwing. -/
def toU32 (v : Nat) : Buffer :=
  [v / 0x1000000 % 256, v / 0x10000 % 256, v / 0x100 % 256, v % 256]

/-- `buffer.writeUInt32BE(v, off)` on an already-allocated buffer:
replaces bytes `off..off+3`. -/
def setU32At (b : Buffer) (off v : Nat) : Buffer :=
  b.take off ++ toU32 v ++ b.drop (off + 4)

/-- The ASCII bytes of the string constant wOFF. -/
def wOFFbytes : Buffer := [0x77, 0x4F, 0x46, 0x46]

/-- The ASCII bytes of the string constant wOF2. -/
def wOF2bytes : Buffer := [0x77, 0x4F, 0x46, 0x32]

/-- The ASCII bytes of the string constant OTTO. -/
def OTTObytes : Buffer := [0x4F, 0x54, 0x54, 0x4F]

/-- `FontFormat` from `types/index.ts`. -/
inductive FontFormat where
  | ttf | otf | woff | woff2 | unknown
deriving DecidableEq

/-- `OutputFormat` from `types/index.ts`. -/
inductive OutputFormat where
  | woff | woff2 | ttf
deriving DecidableEq

/-- `detectFormat` (signature sniffer): returns `unknown` for buffers of
fewer than 4 bytes, otherwise matches the first four bytes against the
`FONT_SIGNATURES` table. -/
def detectFormat (buffer : Buffer) : FontFormat :=
  if buffer.length < 4 then .unknown
  else
    let signature := bufSlice buffer 0 4
    let magic := byteAt buffer 0 * 0x1000000 + byteAt buffer 1 * 0x10000 +
                 byteAt buffer 2 * 0x100 + byteAt buffer 3
    if signature = wOFFbytes then .woff
    else if signature = wOF2bytes then .woff2
    else if signature = OTTObytes then .otf
    else if magic = 0x00010000 ∨ magic = 0x74727565 then .ttf
    else .unknown

section Subsetter

/-- Errors thrown by the subsetter module (`SubsetError`, `EmptyTextError`
from `errors/index.ts`). -/
inductive SubsetErr where
  | subsetError (msg : String)
  | emptyTextError
deriving DecidableEq

/-- `SubsetOptions` from `types/index.ts`; `text` is optional in the
interface, `none` models an absent field. -/
structure SubsetOptions where
  fontBuffer : Buffer
  text : Option String
  hinting : Bool := false

/-- JS truthiness test `!text || text.length === 0` used by the subsetter:
true exactly for an absent or empty string. -/
def textIsEmpty (t : Option String) : Bool :=
  match t with
  | none => true
  | some s => s.isEmpty

/-- `subsetFont`: returns the input buffer unchanged when `text` is absent
or empty, otherwise delegates to the fontmin glyph engine (a parameter of
the embedding). -/
def subsetFont (engine : Buffer → String → Bool → Except SubsetErr Buffer)
    (options : SubsetOptions) : Except SubsetErr Buffer :=
  if textIsEmpty options.text then .ok options.fontBuffer
  else engine options.fontBuffer (options.text.getD "") options.hinting

/-- `extractUniqueChars`: deduplicate via a JS Set and re-join,
keeping the first occurrence of each character. -/
def extractUniqueChars (text : String) : String :=
  String.mk (text.toList.foldl (fun acc c => if c ∈ acc then acc else acc ++ [c]) [])

/-- `SubsetResult` from `types/index.ts`; the floating-point `reduction`
percentage is carried as a rational (IEEE rounding abstracted). -/
structure SubsetResult where
  buffer : Buffer
  originalSize : Nat
  subsetSize : Nat
  reduction : ℚ
  charCount : Nat
  glyphCount : Nat

/-- `subsetFontWithStats`: throws `EmptyTextError` on absent or empty
`text`, otherwise subsets via `subsetFont` on the deduplicated text and
reports sizes. -/
def subsetFontWithStats (engine : Buffer → String → Bool → Except SubsetErr Buffer)
    (options : SubsetOptions) : Except SubsetErr SubsetResult :=
  if textIsEmpty options.text then .error .emptyTextError
  else
    let originalSize := options.fontBuffer.length
    let uniqueChars := extractUniqueChars (options.text.getD "")
    match subsetFont engine { options with text := some uniqueChars } with
    | .error e => .error e
    | .ok subsetBuffer =>
      .ok { buffer := subsetBuffer
            originalSize := originalSize
            subsetSize := subsetBuffer.length
            reduction := (1 - (subsetBuffer.length : ℚ) / (originalSize : ℚ)) * 100
            charCount := uniqueChars.length
            glyphCount := uniqueChars.length + 1 }

end Subsetter

section Converter

/-- `searchRange` as computed by `decompressWoff` (line 104):
`Math.floor(Math.log2(numTables)) * 16`.  Note the missing `2 **`:
the OpenType formula would be `2 ^ floor(log2 n) * 16`. -/
def searchRangeOf (numTables : Nat) : Nat := floorLog2 numTables * 16

/-- `entrySelector` as computed by `decompressWoff` (line 105):
`Math.floor(Math.log2(numTables))`. -/
def entrySelectorOf (numTables : Nat) : Nat := floorLog2 numTables

/-- `rangeShift` as computed by `decompressWoff` (line 106):
`numTables * 16 - searchRange`. -/
def rangeShiftOf (numTables : Nat) : Nat := numTables * 16 - searchRangeOf numTables

/-- The 12-byte SFNT header written by `decompressWoff` (lines 108-113):
sfnt version hardcoded to `0x00010000`, then `numTables` and the three
derived directory fields. -/
def ttfHeaderOf (numTables : Nat) : Buffer :=
  toU32 0x00010000 ++ toU16 numTables ++ toU16 (searchRangeOf numTables) ++
  toU16 (entrySelectorOf numTables) ++ toU16 (rangeShiftOf numTables)

/-- Per-entry payload handling of `decompressWoff` (lines 129-134): inflate
exactly when `compLength < origLength`, otherwise take the slice verbatim.
`inflate` is pako's zlib inflate, a parameter of the embedding; `none`
models an inflate exception. -/
def decodeTableData (inflate : Buffer → Option Buffer)
    (compData : Buffer) (compLength origLength : Nat) : Option Buffer :=
  if compLength < origLength then inflate compData else some compData

/-- Zero-pad a decompressed table to a 4-byte boundary, as in the assembly
loop of `decompressWoff` (lines 155-162). -/
def padTo4 (t : Buffer) : Buffer := t ++ List.replicate ((4 - t.length % 4) % 4) 0

/-- The per-entry loop of `decompressWoff` (lines 122-151), processing the
given number of remaining entries.  `offset` is the cursor into the WOFF
buffer (note: the table payload is read at `offset + 20`, i.e. directly
after the directory entry being processed); `ttfOffset` is the running
offset recorded in the rebuilt SFNT directory, advanced by `origLength`
plus alignment.  Returns the 16-byte directory entries and the table
payloads; `.error` models a thrown exception (failed read, failed inflate,
or a `writeUInt32BE` range error). -/
def decodeLoop (inflate : Buffer → Option Buffer) (woffBuffer : Buffer) :
    Nat → Nat → Nat → Except String (List Buffer × List Buffer)
  | 0, _, _ => .ok ([], [])
  | n + 1, offset, ttfOffset =>
    match readUInt32BE woffBuffer (offset + 8), readUInt32BE woffBuffer (offset + 12) with
    | some compLength, some origLength =>
      let tag := bufSlice woffBuffer offset (offset + 4)
      let tagPadded := tag ++ List.replicate (4 - tag.length) 0
      let compData := bufSlice woffBuffer (offset + 20) (offset + 20 + compLength)
      match decodeTableData inflate compData compLength origLength with
      | none => .error "WOFF解压失败: 解压错误"
      | some tableData =>
        if ttfOffset ≤ 0xFFFFFFFF then
          let entry := tagPadded ++ toU32 0 ++ toU32 ttfOffset ++ toU32 origLength
          let pad := if origLength % 4 ≠ 0 then 4 - origLength % 4 else 0
          match decodeLoop inflate woffBuffer n (offset + 20 + compLength) (ttfOffset + origLength + pad) with
          | .ok (entries, tables) => .ok (entry :: entries, tableData :: tables)
          | .error e => .error e
        else .error "WOFF解压失败: RangeError"
    | _, _ => .error "WOFF解压失败: RangeError"

/-- `decompressWoff` (converter.ts lines 91-168): verify the wOFF
signature, read the header, rebuild the SFNT header and directory, and
concatenate the decompressed tables padded to 4 bytes.  Note that the
rebuilt header always carries flavor `0x00010000` and every rebuilt
directory entry carries checksum 0, and that each table payload is read at
the directory cursor + 20 rather than at the entry's `offset` field. -/
def decompressWoff (inflate : Buffer → Option Buffer) (woffBuffer : Buffer) :
    Except String Buffer :=
  if bufSlice woffBuffer 0 4 = wOFFbytes then
    match readUInt32BE woffBuffer 8, readUInt16BE woffBuffer 12 with
    | some _sfntSize, some numTables =>
      if numTables = 0 then .error "WOFF解压失败: RangeError"
      else if rangeShiftOf numTables ≤ 0xFFFF then
        match decodeLoop inflate woffBuffer numTables 44 (12 + numTables * 16) with
        | .ok (entries, tables) =>
          .ok (ttfHeaderOf numTables ++ entries.flatten ++ (tables.map padTo4).flatten)
        | .error e => .error e
      else .error "WOFF解压失败: RangeError"
    | _, _ => .error "WOFF解压失败: RangeError"
  else .error "不是有效的WOFF文件"

/-- The stored representation the encoder picks for one table
(converter.ts lines 202-206): the deflated bytes when strictly smaller
than the table data, the table data verbatim otherwise. -/
def storedData (deflate : Buffer → Buffer) (tableData : Buffer) : Buffer :=
  if (deflate tableData).length < tableData.length then deflate tableData else tableData

/-- The per-table loop of `compressWoff` (lines 194-220), processing the
given number of remaining tables starting at SFNT directory index `i`.
`tableOffset` is the running offset recorded in each WOFF directory entry,
advanced by `compLength` only (no alignment).  `deflate` is pako's
deflate, a parameter of the embedding.  Returns the 20-byte WOFF
directory entries and the stored payloads. -/
def encodeLoop (deflate : Buffer → Buffer) (ttfBuffer : Buffer) :
    Nat → Nat → Nat → Except String (List Buffer × List Buffer)
  | 0, _, _ => .ok ([], [])
  | n + 1, i, tableOffset =>
    match readUInt32BE ttfBuffer (12 + i * 16 + 4), readUInt32BE ttfBuffer (12 + i * 16 + 8),
          readUInt32BE ttfBuffer (12 + i * 16 + 12) with
    | some checksum, some offset, some length =>
      let tag := bufSlice ttfBuffer (12 + i * 16) (12 + i * 16 + 4)
      let tagPadded := tag ++ List.replicate (4 - tag.length) 0
      let tableData := bufSlice ttfBuffer offset (offset + length)
      let finalData := storedData deflate tableData
      let compLength := finalData.length
      if tableOffset ≤ 0xFFFFFFFF ∧ compLength ≤ 0xFFFFFFFF then
        let entry := tagPadded ++ toU32 tableOffset ++ toU32 compLength ++
                     toU32 length ++ toU32 checksum
        match encodeLoop deflate ttfBuffer n (i + 1) (tableOffset + compLength) with
        | .ok (entries, datas) => .ok (entry :: entries, finalData :: datas)
        | .error e => .error e
      else .error "WOFF压缩失败: RangeError"
    | _, _, _ => .error "WOFF压缩失败: RangeError"

/-- `compressWoff` (converter.ts lines 175-235): read `numTables` and the
flavor from the SFNT header, emit the 44-byte WOFF header, then the
directory entries, then the payloads, and finally patch the file length
(at byte 8) and the input SFNT size (at byte 16) into the header. -/
def compressWoff (deflate : Buffer → Buffer) (ttfBuffer : Buffer) :
    Except String Buffer :=
  match readUInt16BE ttfBuffer 4 with
  | none => .error "WOFF压缩失败: RangeError"
  | some numTables =>
    match readUInt32BE ttfBuffer 0 with
    | none => .error "WOFF压缩失败: RangeError"
    | some flavor =>
      let woffHeader := wOFFbytes ++ toU32 flavor ++ toU32 0 ++ toU16 numTables ++
                        List.replicate 30 0
      match encodeLoop deflate ttfBuffer numTables 0 (12 + numTables * 16) with
      | .error e => .error e
      | .ok (entries, datas) =>
        let woffBuffer := woffHeader ++ entries.flatten ++ datas.flatten
        if woffBuffer.length ≤ 0xFFFFFFFF ∧ ttfBuffer.length ≤ 0xFFFFFFFF then
          .ok (setU32At (setU32At woffBuffer 8 woffBuffer.length) 16 ttfBuffer.length)
        else .error "WOFF压缩失败: RangeError"

/-- `ConvertResult` from `types/index.ts` (the optional `compressionRatio`
is never set by `convertFont` and is omitted). -/
structure ConvertResult where
  format : OutputFormat
  buffer : Buffer
  size : Nat
deriving DecidableEq

/-- Step 2 of `convertFont` (lines 40-66): for each requested output
format, encode from the same normalized TTF buffer; on success push a
`ConvertResult`, on failure log to the console and continue — the failed
format contributes nothing to the returned list. -/
def convertLoop (deflate : Buffer → Buffer)
    (compressWoff2Fn : Buffer → Except String Buffer) (ttfBuffer : Buffer) :
    List OutputFormat → List ConvertResult
  | [] => []
  | format :: rest =>
    match (match format with
           | .ttf => Except.ok ttfBuffer
           | .woff => compressWoff deflate ttfBuffer
           | .woff2 => compressWoff2Fn ttfBuffer) with
    | .ok buffer =>
      { format := format, buffer := buffer, size := buffer.length } ::
        convertLoop deflate compressWoff2Fn ttfBuffer rest
    | .error _ => convertLoop deflate compressWoff2Fn ttfBuffer rest

/-- `convertFont` (lines 12-69): normalize the input to a TTF buffer
(identity for `ttf`, collaborator calls for `otf`/`woff2`, `decompressWoff`
for `woff`), failing the whole call on a normalization error, then run the
per-output-format loop.  `compressWoff2Fn`, `decompressWoff2Fn` and
`convertOtfToTtfFn` are the external collaborators. -/
def convertFont (deflate : Buffer → Buffer) (inflate : Buffer → Option Buffer)
    (compressWoff2Fn decompressWoff2Fn convertOtfToTtfFn : Buffer → Except String Buffer)
    (inputBuffer : Buffer) (inputFormat : FontFormat)
    (outputFormats : List OutputFormat) : Except String (List ConvertResult) :=
  match (match inputFormat with
         | .ttf => Except.ok inputBuffer
         | .otf => convertOtfToTtfFn inputBuffer
         | .woff => decompressWoff inflate inputBuffer
         | .woff2 => decompressWoff2Fn inputBuffer
         | .unknown => Except.error "不支持的输入格式: unknown") with
  | .error msg => .error ("格式转换失败: " ++ msg)
  | .ok ttfBuffer => .ok (convertLoop deflate compressWoff2Fn ttfBuffer outputFormats)

/-- Total compressed size of a list of stored payloads. -/
def sumLens (ds : List Buffer) : Nat := (ds.map List.length).sum

end Converter

section ConcreteInputs

/-- A deflate stub that always grows its input by one byte, forcing the
encoder's verbatim branch (pako is an external collaborator). -/
def deflStub : Buffer → Buffer := fun d => 0 :: d

/-- An inflate stub that always fails; used where inflation must never be
reached. -/
def inflNone : Buffer → Option Buffer := fun _ => none

/-- A minimal valid SFNT: flavor `0x00010000`, one table `TEST` with
checksum 1, offset 28, length 4, data `[10,20,30,40]`. -/
def ttfOneTable : Buffer :=
  [0,1,0,0, 0,1, 0,0, 0,0, 0,0] ++
  [84,69,83,84, 0,0,0,1, 0,0,0,28, 0,0,0,4] ++ [10,20,30,40]

/-- A valid SFNT with two tables `TEST` (checksum 1, data `[10,20,30,40]`
at 44) and `BBBB` (checksum 2, data `[50,60,70,80]` at 48). -/
def ttfTwoTable : Buffer :=
  [0,1,0,0, 0,2, 0,0, 0,0, 0,0] ++
  [84,69,83,84, 0,0,0,1, 0,0,0,44, 0,0,0,4] ++
  [66,66,66,66, 0,0,0,2, 0,0,0,48, 0,0,0,4] ++
  [10,20,30,40] ++ [50,60,70,80]

/-- A two-table SFNT whose first table has length 3 (not a multiple of 4),
exposing the encoder's missing 4-byte alignment. -/
def ttfTwoTableB : Buffer :=
  [0,1,0,0, 0,2, 0,0, 0,0, 0,0] ++
  [84,69,83,84, 0,0,0,1, 0,0,0,44, 0,0,0,3] ++
  [66,66,66,66, 0,0,0,2, 0,0,0,47, 0,0,0,4] ++
  [10,20,30] ++ [50,60,70,80]

/-- An SFNT header declaring zero tables. -/
def ttfEmptyDir : Buffer := [0,1,0,0, 0,0, 0,0, 0,0, 0,0]

/-- What `compressWoff deflStub ttfOneTable` produces (68 bytes): 44-byte
header, one 20-byte directory entry recording offset 28 (an SFNT-style
offset — the payload actually sits at byte 64), then the verbatim payload. -/
def woffOneTableEnc : Buffer :=
  [119,79,70,70, 0,1,0,0, 0,0,0,68, 0,1, 0,0, 0,0,0,32] ++ List.replicate 24 0 ++
  [84,69,83,84, 0,0,0,28, 0,0,0,4, 0,0,0,4, 0,0,0,1] ++ [10,20,30,40]

/-- The SFNT reconstructed by decoding `woffOneTableEnc`: note checksum 0
where the source table had checksum 1, and `searchRange = 0`. -/
def ttfOneRound : Buffer :=
  [0,1,0,0, 0,1, 0,0, 0,0, 0,16] ++
  [84,69,83,84, 0,0,0,0, 0,0,0,28, 0,0,0,4] ++ [10,20,30,40]

/-- The mangled SFNT produced by round-tripping `ttfTwoTable`: the decoder
expects each payload directly after its directory entry, so the first
rebuilt table consists of the second directory entry's tag bytes. -/
def ttfTwoRound : Buffer :=
  [0,1,0,0, 0,2, 0,16, 0,1, 0,16] ++
  [84,69,83,84, 0,0,0,0, 0,0,0,44, 0,0,0,4] ++
  [0,0,0,48, 0,0,0,0, 0,0,0,48, 0,0,0,2] ++
  [66,66,66,66] ++ [50,60,70,80]

/-- What `compressWoff deflStub ttfTwoTableB` produces (91 bytes): entry 2
records offset 47, which is not 4-byte aligned, and the payloads are
packed back to back with no padding. -/
def woffTwoTableBEnc : Buffer :=
  [119,79,70,70, 0,1,0,0, 0,0,0,91, 0,2, 0,0, 0,0,0,51] ++ List.replicate 24 0 ++
  [84,69,83,84, 0,0,0,44, 0,0,0,3, 0,0,0,3, 0,0,0,1] ++
  [66,66,66,66, 0,0,0,47, 0,0,0,4, 0,0,0,4, 0,0,0,2] ++
  [10,20,30] ++ [50,60,70,80]

/-- What `compressWoff deflStub ttfEmptyDir` produces: a bare 44-byte WOFF
header declaring zero tables — no `EmptyContainer` failure. -/
def woffEmptyEnc : Buffer :=
  [119,79,70,70, 0,1,0,0, 0,0,0,44, 0,0, 0,0, 0,0,0,12] ++ List.replicate 24 0

/-- A well-formed one-table WOFF whose header flavor is `OTTO`
(`0x4F54544F`) and whose directory entry carries `origChecksum = 5`,
`compLength = origLength = 4` (stored verbatim). -/
def woffOtto : Buffer :=
  wOFFbytes ++ toU32 0x4F54544F ++ toU32 68 ++ toU16 1 ++ List.replicate 30 0 ++
  ([84,69,83,84] ++ toU32 64 ++ toU32 4 ++ toU32 4 ++ toU32 5) ++ [1,2,3,4]

/-- The SFNT rebuilt from `woffOtto`: flavor `0x00010000` (not `OTTO`) and
table checksum 0 (not 5). -/
def ttfFromWoffOtto : Buffer :=
  [0,1,0,0, 0,1, 0,0, 0,0, 0,16] ++
  [84,69,83,84, 0,0,0,0, 0,0,0,28, 0,0,0,4] ++ [1,2,3,4]

/-- A one-table WOFF with `compLength = 2 < origLength = 8`, payload
`[7,7]` — the entry's payload must be inflated. -/
def woffCompressedEntry : Buffer :=
  wOFFbytes ++ toU32 0x00010000 ++ toU32 66 ++ toU16 1 ++ List.replicate 30 0 ++
  ([84,69,83,84] ++ toU32 64 ++ toU32 2 ++ toU32 8 ++ toU32 5) ++ [7,7]

/-- The SFNT rebuilt from `woffCompressedEntry` when inflate returns the
2-byte list `[9,9]`: the decoder succeeds even though 2 differs from the
declared `origLength` 8 (the rebuilt directory still records length 8). -/
def ttfFromWoffCompressed : Buffer :=
  [0,1,0,0, 0,1, 0,0, 0,0, 0,16] ++
  [84,69,83,84, 0,0,0,0, 0,0,0,28, 0,0,0,8] ++ [9,9,0,0]

end ConcreteInputs

/-- C1 (code bug): the WOFF round trip does not restore the source
container.  For the one-table SFNT `ttfOneTable` the round trip succeeds
but the table's checksum 1 comes back as 0; for the two-table SFNT the
decoder misparses the encoder's grouped directory+payload layout as
interleaved, so the first table's data at its recorded offset 44 comes
back as the second entry's tag bytes `[66,66,66,66]` instead of
`[10,20,30,40]`. -/
theorem c1_roundtrip_not_semantic_preserving :
    ((compressWoff deflStub ttfOneTable).bind (decompressWoff inflNone) = .ok ttfOneRound ∧
     readUInt32BE ttfOneTable 16 = some 1 ∧ readUInt32BE ttfOneRound 16 = some 0) ∧
    ((compressWoff deflStub ttfTwoTable).bind (decompressWoff inflNone) = .ok ttfTwoRound ∧
     bufSlice ttfTwoTable 44 48 = [10,20,30,40] ∧
     bufSlice ttfTwoRound 44 48 = [66,66,66,66]) := by
  decide

/-- C2 (code bug): decoding a WOFF whose header flavor is `OTTO` and whose
directory entry carries `origChecksum = 5` yields an SFNT whose flavor
field is the hardcoded `0x00010000` and whose table record carries
checksum 0 — the decoder reads neither the flavor nor the origChecksum
field (the rebuilt checksum slot is written 0 with a "compute later"
comment that never executes). -/
theorem c2_decoder_ignores_flavor_and_checksum :
    decompressWoff inflNone woffOtto = .ok ttfFromWoffOtto ∧
    readUInt32BE woffOtto 4 = some 0x4F54544F ∧
    readUInt32BE ttfFromWoffOtto 0 = some 0x00010000 ∧
    readUInt32BE woffOtto 60 = some 5 ∧
    readUInt32BE ttfFromWoffOtto 16 = some 0 := by
  decide

/-- C3 (code bug): the codec computes
`searchRange = floor(log2 numTables) * 16`, dropping the `2 ^` of the
OpenType formula.  At `numTables = 5` it writes
`searchRange = 32, entrySelector = 2, rangeShift = 48` instead of the
claimed `64 / 2 / 16`, and in general `searchRange` equals
`entrySelector * 16`, not `2 ^ entrySelector * 16`. -/
theorem c3_search_range_derivation :
    searchRangeOf 5 = 32 ∧ entrySelectorOf 5 = 2 ∧ rangeShiftOf 5 = 48 ∧
    searchRangeOf 5 ≠ 2 ^ entrySelectorOf 5 * 16 ∧
    ttfHeaderOf 5 = [0,1,0,0, 0,5, 0,32, 0,2, 0,48] := by
  decide

/-- C4 counterexample: an entry with `compLength = 2 < origLength = 8`
whose inflation returns 2 bytes — not the declared 8 — is accepted: the
decoder succeeds (no `DecompressionFailed`), storing the 2 inflated bytes
(padded) while the rebuilt directory still records length 8. -/
theorem c4_no_length_check_counterexample :
    decompressWoff (fun _ => some [9,9]) woffCompressedEntry = .ok ttfFromWoffCompressed ∧
    readUInt32BE woffCompressedEntry 52 = some 2 ∧
    readUInt32BE woffCompressedEntry 56 = some 8 ∧
    ([9,9] : Buffer).length ≠ 8 := by
  decide

/-- C5 counterexample: in the WOFF file produced for `ttfTwoTableB`, the
second entry records offset 47 — not 4-byte aligned; the first entry
records offset 44, but bytes 44..46 of the file are directory bytes
(`TES`), the payload actually living at bytes 84..86; and the second
payload starts at byte 87, immediately after the 3-byte first payload,
with no zero padding in between. -/
theorem c5_layout_counterexample :
    compressWoff deflStub ttfTwoTableB = .ok woffTwoTableBEnc ∧
    readUInt32BE woffTwoTableBEnc 48 = some 44 ∧
    readUInt32BE woffTwoTableBEnc 68 = some 47 ∧
    47 % 4 ≠ 0 ∧
    bufSlice woffTwoTableBEnc 44 47 ≠ [10,20,30] ∧
    bufSlice woffTwoTableBEnc 84 87 = [10,20,30] ∧
    bufSlice woffTwoTableBEnc 87 91 = [50,60,70,80] := by
  decide

/-- C7 counterexample: requesting `[woff, woff2]` with a failing WOFF2
collaborator returns a result list containing only the `woff` entry — the
failed format contributes no entry and no recorded error to the caller
(`ConvertResult` has no error field; the error goes to `console.error`). -/
theorem c7_failed_format_omitted :
    convertFont deflStub inflNone (fun _ => .error "WOFF2压缩失败")
        (fun _ => .error "x") (fun _ => .error "y")
        ttfOneTable FontFormat.ttf [OutputFormat.woff, OutputFormat.woff2] =
      .ok [{ format := OutputFormat.woff, buffer := woffOneTableEnc, size := 68 }] := by
  decide

/-- C8 counterexample: on an SFNT declaring zero tables the encoder does
not fail — there is no `EmptyContainer` error anywhere in the code — it
returns a bare 44-byte WOFF header with `numTables = 0`. -/
theorem c8_empty_container_succeeds :
    compressWoff deflStub ttfEmptyDir = .ok woffEmptyEnc ∧
    readUInt16BE ttfEmptyDir 4 = some 0 ∧
    woffEmptyEnc.length = 44 := by
  decide

/-- C9 counterexample: on a 2-byte buffer the sniffer does not fail with
any `TooShort` error — it is a total function that returns the tag
`unknown` (no `FormatError` class exists in the code base at all). -/
theorem c9_short_buffer_returns_unknown_not_error :
    detectFormat [0x77, 0x4F] = FontFormat.unknown ∧ ([0x77, 0x4F] : Buffer).length < 4 := by
  constructor
  · rfl
  · decide

/-- C9 (amended): for fewer than 4 bytes the sniffer returns `unknown`
(it does not fail); for a buffer of at least 4 bytes whose first 4 bytes
match no known signature it also returns `unknown`, and it never throws
(it is a total function). -/
theorem c9_detectFormat_amended (b : Buffer) :
    (b.length < 4 → detectFormat b = FontFormat.unknown) ∧
    (4 ≤ b.length →
      bufSlice b 0 4 ≠ wOFFbytes →
      bufSlice b 0 4 ≠ wOF2bytes →
      bufSlice b 0 4 ≠ OTTObytes →
      byteAt b 0 * 0x1000000 + byteAt b 1 * 0x10000 + byteAt b 2 * 0x100 + byteAt b 3 ≠ 0x00010000 →
      byteAt b 0 * 0x1000000 + byteAt b 1 * 0x10000 + byteAt b 2 * 0x100 + byteAt b 3 ≠ 0x74727565 →
      detectFormat b = FontFormat.unknown) := by
  constructor
  · intro h
    simp [detectFormat, h]
  · intro hlen h1 h2 h3 h4 h5
    simp only [detectFormat, if_neg (by omega : ¬ b.length < 4)]
    simp [h1, h2, h3, h4, h5]

/-- C9 amended witness at the concrete 4-byte buffer `[1,2,3,4]`. -/
theorem c9_detectFormat_amended_witness :
    detectFormat [1, 2, 3, 4] = FontFormat.unknown :=
  (c9_detectFormat_amended [1, 2, 3, 4]).2 (by decide) (by decide) (by decide)
    (by decide) (by decide) (by decide)

/-- C10: with empty (or absent) text, `subsetFont` resolves to the input
buffer unchanged for every possible engine (so the engine is never
consulted), while `subsetFontWithStats` rejects with `EmptyTextError`. -/
theorem c10_empty_text_passthrough_vs_error
    (engine : Buffer → String → Bool → Except SubsetErr Buffer)
    (options : SubsetOptions) (h : textIsEmpty options.text = true) :
    subsetFont engine options = .ok options.fontBuffer ∧
    subsetFontWithStats engine options = .error SubsetErr.emptyTextError := by
  constructor
  · simp [subsetFont, h]
  · simp [subsetFontWithStats, h]

/-- C10 witness: a concrete call with absent text and an engine that
always fails still returns the input buffer / the empty-text error. -/
theorem c10_empty_text_witness :
    subsetFont (fun _ _ _ => .error (.subsetError "boom"))
        { fontBuffer := [1, 2, 3], text := none } = .ok [1, 2, 3] ∧
    subsetFontWithStats (fun _ _ _ => .error (.subsetError "boom"))
        { fontBuffer := [1, 2, 3], text := none } = .error SubsetErr.emptyTextError :=
  c10_empty_text_passthrough_vs_error
    (fun _ _ _ => .error (.subsetError "boom"))
    { fontBuffer := [1, 2, 3], text := none } (by rfl)

/-! ### Byte-buffer helper lemmas -/

theorem byteAt_lt (b : Buffer) (i : Nat) : byteAt b i < 256 :=
  Nat.mod_lt _ (by omega)

theorem byteAt_append_right (xs ys : Buffer) (i : Nat) (h : xs.length ≤ i) :
    byteAt (xs ++ ys) i = byteAt ys (i - xs.length) := by
  unfold byteAt
  rw [List.getD_append_right xs ys 0 i h]

theorem byteAt_append_left (xs ys : Buffer) (i : Nat) (h : i < xs.length) :
    byteAt (xs ++ ys) i = byteAt xs i := by
  unfold byteAt
  rw [List.getD_append xs ys 0 i h]

theorem readUInt32BE_lt (b : Buffer) (off v : Nat) (h : readUInt32BE b off = some v) :
    v < 2 ^ 32 := by
  unfold readUInt32BE at h
  split at h
  · have h0 := byteAt_lt b off
    have h1 := byteAt_lt b (off + 1)
    have h2 := byteAt_lt b (off + 2)
    have h3 := byteAt_lt b (off + 3)
    have := Option.some.inj h
    omega
  · exact absurd h (by simp)

theorem readUInt16BE_lt (b : Buffer) (off v : Nat) (h : readUInt16BE b off = some v) :
    v < 2 ^ 16 := by
  unfold readUInt16BE at h
  split at h
  · have h0 := byteAt_lt b off
    have h1 := byteAt_lt b (off + 1)
    have := Option.some.inj h
    omega
  · exact absurd h (by simp)

theorem readUInt32BE_append_right (xs ys : Buffer) (k : Nat) (h : xs.length ≤ k) :
    readUInt32BE (xs ++ ys) k = readUInt32BE ys (k - xs.length) := by
  unfold readUInt32BE
  rw [List.length_append]
  by_cases hc : k + 4 ≤ xs.length + ys.length
  · rw [if_pos hc, if_pos (by omega)]
    rw [byteAt_append_right xs ys k h,
        byteAt_append_right xs ys (k + 1) (by omega),
        byteAt_append_right xs ys (k + 2) (by omega),
        byteAt_append_right xs ys (k + 3) (by omega)]
    have e1 : k + 1 - xs.length = k - xs.length + 1 := by omega
    have e2 : k + 2 - xs.length = k - xs.length + 2 := by omega
    have e3 : k + 3 - xs.length = k - xs.length + 3 := by omega
    rw [e1, e2, e3]
  · rw [if_neg hc, if_neg (by omega)]

theorem readUInt32BE_toU32 (v : Nat) (ys : Buffer) (hv : v < 2 ^ 32) :
    readUInt32BE (toU32 v ++ ys) 0 = some v := by
  unfold readUInt32BE toU32 byteAt
  simp only [List.cons_append, List.nil_append, List.length_cons, List.getD_cons_zero,
    List.getD_cons_succ]
  rw [if_pos (by omega)]
  congr 1
  omega

theorem length_bufSlice_le (b : Buffer) (o l : Nat) :
    (bufSlice b o (o + l)).length ≤ l := by
  unfold bufSlice
  rw [List.length_drop, List.length_take]
  omega

theorem length_bufSlice_window (b : Buffer) (o l : Nat) (h : o + l ≤ b.length) :
    (bufSlice b o (o + l)).length = l := by
  unfold bufSlice
  rw [List.length_drop, List.length_take]
  omega

theorem getD_drop (b : Buffer) (m n d : Nat) : (b.drop m).getD n d = b.getD (m + n) d := by
  rw [List.getD_eq_getElem?_getD, List.getD_eq_getElem?_getD, List.getElem?_drop]

theorem byteAt_drop (b : Buffer) (m n : Nat) : byteAt (b.drop m) n = byteAt b (m + n) := by
  unfold byteAt
  rw [getD_drop]

theorem length_flatten_uniform (c : Nat) (es : List Buffer) (h : ∀ e ∈ es, e.length = c) :
    es.flatten.length = c * es.length := by
  induction es with
  | nil => simp
  | cons e es ih =>
    simp only [List.flatten_cons, List.length_append, List.length_cons]
    rw [h e (by simp), ih (fun x hx => h x (List.mem_cons_of_mem _ hx))]
    ring

theorem getD_flatten_uniform (c : Nat) (es : List Buffer) (h : ∀ e ∈ es, e.length = c)
    (j r d : Nat) (hj : j < es.length) (hr : r < c) :
    es.flatten.getD (c * j + r) d = (es.getD j []).getD r d := by
  induction es generalizing j with
  | nil => simp at hj
  | cons e es ih =>
    have hce : e.length = c := h e (by simp)
    cases j with
    | zero =>
      simp only [List.flatten_cons, List.getD_cons_zero, Nat.mul_zero, Nat.zero_add]
      rw [List.getD_append _ _ _ _ (by omega)]
    | succ j =>
      simp only [List.flatten_cons, List.getD_cons_succ]
      have hidx : c * (j + 1) + r = e.length + (c * j + r) := by
        rw [hce, Nat.mul_succ]
        ring
      rw [hidx, List.getD_append_right _ _ _ _ (by omega), Nat.add_sub_cancel_left]
      exact ih (fun x hx => h x (List.mem_cons_of_mem _ hx)) j
        (Nat.lt_of_succ_lt_succ (by simpa using hj))

theorem length_setU32At (b : Buffer) (off v : Nat) (hb : off + 4 ≤ b.length) :
    (setU32At b off v).length = b.length := by
  unfold setU32At toU32
  simp only [List.length_append, List.length_take, List.length_drop, List.length_cons,
    List.length_nil]
  omega

theorem take_toU32_length (b : Buffer) (off v : Nat) (hb : off + 4 ≤ b.length) :
    (b.take off ++ toU32 v).length = off + 4 := by
  simp only [List.length_append, List.length_take, toU32, List.length_cons, List.length_nil]
  omega

theorem drop_setU32At (b : Buffer) (off v n : Nat) (h : off + 4 ≤ n) (hb : off + 4 ≤ b.length) :
    (setU32At b off v).drop n = b.drop n := by
  obtain ⟨m, rfl⟩ : ∃ m, n = (b.take off ++ toU32 v).length + m :=
    ⟨n - (off + 4), by rw [take_toU32_length b off v hb]; omega⟩
  unfold setU32At
  rw [List.drop_append m, List.drop_drop, take_toU32_length b off v hb]

theorem byteAt_setU32At_ge (b : Buffer) (off v i : Nat) (h : off + 4 ≤ i)
    (hb : off + 4 ≤ b.length) :
    byteAt (setU32At b off v) i = byteAt b i := by
  have h1 : byteAt (setU32At b off v) i =
      byteAt (b.drop (off + 4)) (i - (off + 4)) := by
    unfold setU32At
    rw [byteAt_append_right _ _ _ (by rw [take_toU32_length b off v hb]; omega),
        take_toU32_length b off v hb]
  rw [h1, byteAt_drop]
  congr 1
  omega

theorem readUInt32BE_setU32At_ge (b : Buffer) (off v k : Nat) (h : off + 4 ≤ k)
    (hb : off + 4 ≤ b.length) :
    readUInt32BE (setU32At b off v) k = readUInt32BE b k := by
  unfold readUInt32BE
  rw [length_setU32At b off v hb]
  by_cases hc : k + 4 ≤ b.length
  · rw [if_pos hc, if_pos hc,
      byteAt_setU32At_ge b off v k h hb,
      byteAt_setU32At_ge b off v (k + 1) (by omega) hb,
      byteAt_setU32At_ge b off v (k + 2) (by omega) hb,
      byteAt_setU32At_ge b off v (k + 3) (by omega) hb]
  · rw [if_neg hc, if_neg hc]

theorem sumLens_nil : sumLens [] = 0 := rfl

theorem sumLens_cons (d : Buffer) (ds : List Buffer) :
    sumLens (d :: ds) = d.length + sumLens ds := by
  simp [sumLens]

theorem tagPadded_length (b : Buffer) (o : Nat) :
    (bufSlice b o (o + 4) ++ List.replicate (4 - (bufSlice b o (o + 4)).length) 0).length = 4 := by
  have h := length_bufSlice_le b o 4
  simp only [List.length_append, List.length_replicate]
  omega

theorem readFields20 (tp : Buffer) (htp : tp.length = 4) (a b c d : Nat)
    (ha : a < 2 ^ 32) (hb : b < 2 ^ 32) (hc : c < 2 ^ 32) (hd : d < 2 ^ 32) :
    readUInt32BE (tp ++ toU32 a ++ toU32 b ++ toU32 c ++ toU32 d) 4 = some a ∧
    readUInt32BE (tp ++ toU32 a ++ toU32 b ++ toU32 c ++ toU32 d) 8 = some b ∧
    readUInt32BE (tp ++ toU32 a ++ toU32 b ++ toU32 c ++ toU32 d) 12 = some c ∧
    readUInt32BE (tp ++ toU32 a ++ toU32 b ++ toU32 c ++ toU32 d) 16 = some d := by
  have l1 : (tp ++ toU32 a).length = 8 := by simp [toU32, htp]
  have l2 : (tp ++ toU32 a ++ toU32 b).length = 12 := by simp [toU32, htp]
  have l3 : (tp ++ toU32 a ++ toU32 b ++ toU32 c).length = 16 := by simp [toU32, htp]
  refine ⟨?_, ?_, ?_, ?_⟩
  · rw [show tp ++ toU32 a ++ toU32 b ++ toU32 c ++ toU32 d =
        tp ++ (toU32 a ++ (toU32 b ++ (toU32 c ++ toU32 d))) by simp [List.append_assoc]]
    rw [readUInt32BE_append_right _ _ 4 (by omega), htp]
    exact readUInt32BE_toU32 a _ ha
  · rw [show tp ++ toU32 a ++ toU32 b ++ toU32 c ++ toU32 d =
        (tp ++ toU32 a) ++ (toU32 b ++ (toU32 c ++ toU32 d)) by simp [List.append_assoc]]
    rw [readUInt32BE_append_right _ _ 8 (by omega), l1]
    exact readUInt32BE_toU32 b _ hb
  · rw [show tp ++ toU32 a ++ toU32 b ++ toU32 c ++ toU32 d =
        (tp ++ toU32 a ++ toU32 b) ++ (toU32 c ++ toU32 d) by simp [List.append_assoc]]
    rw [readUInt32BE_append_right _ _ 12 (by omega), l2]
    exact readUInt32BE_toU32 c _ hc
  · rw [show tp ++ toU32 a ++ toU32 b ++ toU32 c ++ toU32 d =
        (tp ++ toU32 a ++ toU32 b ++ toU32 c) ++ toU32 d by simp [List.append_assoc]]
    rw [readUInt32BE_append_right _ _ 16 (by omega), l3]
    exact readUInt32BE_toU32 d [] hd

theorem encodeLoop_spec (deflate : Buffer → Buffer) (ttf : Buffer) :
    ∀ n i t0 es ds, encodeLoop deflate ttf n i t0 = .ok (es, ds) →
      es.length = n ∧ ds.length = n ∧ (∀ e ∈ es, e.length = 20) ∧
      ∀ j, j < n →
        ∃ offset length checksum,
          readUInt32BE ttf (12 + (i + j) * 16 + 4) = some checksum ∧
          readUInt32BE ttf (12 + (i + j) * 16 + 8) = some offset ∧
          readUInt32BE ttf (12 + (i + j) * 16 + 12) = some length ∧
          ds.getD j [] = storedData deflate (bufSlice ttf offset (offset + length)) ∧
          readUInt32BE (es.getD j []) 4 = some (t0 + sumLens (ds.take j)) ∧
          readUInt32BE (es.getD j []) 8 = some (ds.getD j []).length ∧
          readUInt32BE (es.getD j []) 12 = some length ∧
          readUInt32BE (es.getD j []) 16 = some checksum := by
  intro n
  induction n with
  | zero =>
    intro i t0 es ds h
    simp only [encodeLoop, Except.ok.injEq, Prod.mk.injEq] at h
    obtain ⟨h1, h2⟩ := h
    subst h1; subst h2
    refine ⟨rfl, rfl, by simp, ?_⟩
    intro j hj
    omega
  | succ n ih =>
    intro i t0 es ds h
    simp only [encodeLoop] at h
    split at h
    case h_2 => exact absurd h (by simp)
    case h_1 checksum offset length hck hoff hlen =>
      split at h
      case isFalse => exact absurd h (by simp)
      case isTrue hguard =>
        split at h
        case h_2 => exact absurd h (by simp)
        case h_1 es' ds' hrec =>
          simp only [Except.ok.injEq, Prod.mk.injEq] at h
          obtain ⟨h1, h2⟩ := h
          subst h1; subst h2
          obtain ⟨ihl, ihd, ihu, ihj⟩ := ih (i + 1) _ es' ds' hrec
          have hck32 : checksum < 2 ^ 32 := readUInt32BE_lt ttf _ _ hck
          have hlen32 : length < 2 ^ 32 := readUInt32BE_lt ttf _ _ hlen
          have htp := tagPadded_length ttf (12 + i * 16)
          refine ⟨by simp [ihl], by simp [ihd], ?_, ?_⟩
          · intro e he
            rcases List.mem_cons.mp he with rfl | he2
            · simp only [List.length_append, htp, toU32, List.length_cons, List.length_nil]
            · exact ihu e he2
          · intro j hj
            cases j with
            | zero =>
              refine ⟨offset, length, checksum, ?_, ?_, ?_, ?_, ?_, ?_, ?_, ?_⟩
              · simpa using hck
              · simpa using hoff
              · simpa using hlen
              · simp
              · simp only [List.getD_cons_zero, List.take_zero, sumLens_nil, Nat.add_zero]
                exact (readFields20 _ htp t0 _ length checksum (by omega)
                  (by omega) hlen32 hck32).1
              · simp only [List.getD_cons_zero]
                exact (readFields20 _ htp t0 _ length checksum (by omega)
                  (by omega) hlen32 hck32).2.1
              · simp only [List.getD_cons_zero]
                exact (readFields20 _ htp t0 _ length checksum (by omega)
                  (by omega) hlen32 hck32).2.2.1
              · simp only [List.getD_cons_zero]
                exact (readFields20 _ htp t0 _ length checksum (by omega)
                  (by omega) hlen32 hck32).2.2.2
            | succ j =>
              obtain ⟨o, l, c, r1, r2, r3, r4, r5, r6, r7, r8⟩ := ihj j (by omega)
              refine ⟨o, l, c, ?_, ?_, ?_, ?_, ?_, ?_, ?_, ?_⟩
              · rw [show 12 + (i + (j + 1)) * 16 + 4 = 12 + (i + 1 + j) * 16 + 4 by ring]
                exact r1
              · rw [show 12 + (i + (j + 1)) * 16 + 8 = 12 + (i + 1 + j) * 16 + 8 by ring]
                exact r2
              · rw [show 12 + (i + (j + 1)) * 16 + 12 = 12 + (i + 1 + j) * 16 + 12 by ring]
                exact r3
              · simpa using r4
              · simp only [List.getD_cons_succ, List.take_succ_cons, sumLens_cons]
                rw [show t0 + ((storedData deflate (bufSlice ttf offset (offset + length))).length +
                      sumLens (ds'.take j)) =
                    t0 + (storedData deflate (bufSlice ttf offset (offset + length))).length +
                      sumLens (ds'.take j) by ring]
                exact r5
              · simpa using r6
              · simpa using r7
              · simpa using r8

theorem woffHeader44_length (flavor numTables : Nat) :
    (wOFFbytes ++ toU32 flavor ++ toU32 0 ++ toU16 numTables ++ List.replicate 30 0).length = 44 := by
  simp [wOFFbytes, toU32, toU16]

theorem flatten_length_sumLens (ds : List Buffer) : ds.flatten.length = sumLens ds := by
  rw [List.length_flatten]
  rfl

theorem compressWoff_ok_inv (deflate : Buffer → Buffer) (ttf w : Buffer)
    (h : compressWoff deflate ttf = .ok w) :
    ∃ numTables flavor es ds,
      readUInt16BE ttf 4 = some numTables ∧
      readUInt32BE ttf 0 = some flavor ∧
      encodeLoop deflate ttf numTables 0 (12 + numTables * 16) = .ok (es, ds) ∧
      (wOFFbytes ++ toU32 flavor ++ toU32 0 ++ toU16 numTables ++ List.replicate 30 0 ++
          es.flatten ++ ds.flatten).length ≤ 0xFFFFFFFF ∧
      ttf.length ≤ 0xFFFFFFFF ∧
      w = setU32At (setU32At (wOFFbytes ++ toU32 flavor ++ toU32 0 ++ toU16 numTables ++
            List.replicate 30 0 ++ es.flatten ++ ds.flatten) 8
            (wOFFbytes ++ toU32 flavor ++ toU32 0 ++ toU16 numTables ++
            List.replicate 30 0 ++ es.flatten ++ ds.flatten).length) 16 ttf.length := by
  simp only [compressWoff] at h
  split at h
  case h_1 => exact absurd h (by simp)
  case h_2 numTables hn =>
    split at h
    case h_1 => exact absurd h (by simp)
    case h_2 flavor hf =>
      split at h
      case h_1 => exact absurd h (by simp)
      case h_2 es ds hrec =>
        split at h
        case isFalse => exact absurd h (by simp)
        case isTrue hb =>
          simp only [Except.ok.injEq] at h
          exact ⟨numTables, flavor, es, ds, hn, hf, hrec, hb.1, hb.2, h.symm⟩

theorem readUInt32BE_encoded_entry (flavor numTables L M : Nat) (es ds : List Buffer)
    (hu : ∀ e ∈ es, e.length = 20) (j r : Nat) (hj : j < es.length) (hr : r + 4 ≤ 20) :
    readUInt32BE (setU32At (setU32At (wOFFbytes ++ toU32 flavor ++ toU32 0 ++ toU16 numTables ++
      List.replicate 30 0 ++ es.flatten ++ ds.flatten) 8 L) 16 M) (44 + 20 * j + r) =
    readUInt32BE (es.getD j []) r := by
  set hdr := wOFFbytes ++ toU32 flavor ++ toU32 0 ++ toU16 numTables ++ List.replicate 30 0 with hhdr
  have hdl : hdr.length = 44 := woffHeader44_length flavor numTables
  have hflat : es.flatten.length = 20 * es.length := length_flatten_uniform 20 es hu
  have hbase : hdr ++ es.flatten ++ ds.flatten = hdr ++ (es.flatten ++ ds.flatten) := by
    simp [List.append_assoc]
  have hbl : (hdr ++ es.flatten ++ ds.flatten).length =
      44 + 20 * es.length + ds.flatten.length := by
    simp only [List.length_append, hdl, hflat]
  have hment : es.getD j [] ∈ es := by
    rw [List.getD_eq_getElem es [] hj]
    exact List.getElem_mem hj
  have hej : (es.getD j []).length = 20 := hu _ hment
  have key : ∀ s, s + 1 ≤ 20 →
      byteAt (setU32At (setU32At (hdr ++ es.flatten ++ ds.flatten) 8 L) 16 M)
        (44 + 20 * j + s) = byteAt (es.getD j []) s := by
    intro s hs
    rw [byteAt_setU32At_ge _ 16 M _ (by omega)
        (by rw [length_setU32At _ 8 L (by omega)]; omega),
      byteAt_setU32At_ge _ 8 L _ (by omega) (by omega),
      hbase,
      byteAt_append_right _ _ _ (by omega),
      hdl,
      show 44 + 20 * j + s - 44 = 20 * j + s by omega,
      byteAt_append_left _ _ _ (by omega)]
    unfold byteAt
    rw [getD_flatten_uniform 20 es hu j s 0 hj (by omega)]
  unfold readUInt32BE
  rw [length_setU32At _ 16 M
      (by rw [length_setU32At _ 8 L (by omega)]; omega),
    length_setU32At _ 8 L (by omega)]
  rw [if_pos (by omega), if_pos (by omega)]
  rw [key r (by omega),
    show 44 + 20 * j + r + 1 = 44 + 20 * j + (r + 1) by omega,
    key (r + 1) (by omega),
    show 44 + 20 * j + r + 2 = 44 + 20 * j + (r + 2) by omega,
    key (r + 2) (by omega),
    show 44 + 20 * j + r + 3 = 44 + 20 * j + (r + 3) by omega,
    key (r + 3) (by omega)]

/-- C5 (amended): in every WOFF file the encoder produces, the 20-byte
directory entries sit in table order immediately after the fixed 44-byte
header, and the payloads sit immediately after the full directory in table
order, each advancing by exactly `compLength` with **no** 4-byte alignment
padding; the `offset` recorded in entry `j` is
`12 + numTables*16 + sum of the previous compLengths` — an SFNT-style
offset, not the payload's actual position in the WOFF file (which is
`44 + 20*numTables + sum of previous compLengths`). -/
theorem c5_layout_amended (deflate : Buffer → Buffer) (ttf w : Buffer) (numTables : Nat)
    (h : compressWoff deflate ttf = .ok w) (hn : readUInt16BE ttf 4 = some numTables) :
    ∃ es ds, encodeLoop deflate ttf numTables 0 (12 + numTables * 16) = .ok (es, ds) ∧
      es.length = numTables ∧ ds.length = numTables ∧
      w.length = 44 + 20 * numTables + sumLens ds ∧
      bufSlice w 44 (44 + 20 * numTables) = es.flatten ∧
      bufSlice w (44 + 20 * numTables) w.length = ds.flatten ∧
      ∀ j, j < numTables →
        readUInt32BE w (44 + 20 * j + 4) = some (12 + numTables * 16 + sumLens (ds.take j)) ∧
        readUInt32BE w (44 + 20 * j + 8) = some (ds.getD j []).length := by
  obtain ⟨n2, flavor, es, ds, hn2, hf, hrec, hb1, hb2, hw⟩ := compressWoff_ok_inv deflate ttf w h
  rw [hn] at hn2
  obtain rfl : numTables = n2 := Option.some.inj hn2
  obtain ⟨hesl, hdsl, hu, hfields⟩ := encodeLoop_spec deflate ttf numTables 0 _ es ds hrec
  have hdl : (wOFFbytes ++ toU32 flavor ++ toU32 0 ++ toU16 numTables ++
      List.replicate 30 0).length = 44 := woffHeader44_length flavor numTables
  have hflat : es.flatten.length = 20 * es.length := length_flatten_uniform 20 es hu
  have hbl : (wOFFbytes ++ toU32 flavor ++ toU32 0 ++ toU16 numTables ++
      List.replicate 30 0 ++ es.flatten ++ ds.flatten).length =
      44 + 20 * numTables + sumLens ds := by
    simp only [List.length_append, hdl, hflat, hesl, flatten_length_sumLens]
  have hwl : w.length = 44 + 20 * numTables + sumLens ds := by
    rw [hw, length_setU32At _ 16 _ (by rw [length_setU32At _ 8 _ (by omega)]; omega),
      length_setU32At _ 8 _ (by omega), hbl]
  have hdrop44 : w.drop 44 = es.flatten ++ ds.flatten := by
    rw [hw, drop_setU32At _ 16 _ 44 (by omega)
        (by rw [length_setU32At _ 8 _ (by omega)]; omega),
      drop_setU32At _ 8 _ 44 (by omega) (by omega)]
    have hassoc : wOFFbytes ++ toU32 flavor ++ toU32 0 ++ toU16 numTables ++
        List.replicate 30 0 ++ es.flatten ++ ds.flatten =
        (wOFFbytes ++ toU32 flavor ++ toU32 0 ++ toU16 numTables ++ List.replicate 30 0) ++
        (es.flatten ++ ds.flatten) := by
      simp [List.append_assoc]
    rw [hassoc]
    have := List.drop_left (wOFFbytes ++ toU32 flavor ++ toU32 0 ++ toU16 numTables ++
      List.replicate 30 0) (es.flatten ++ ds.flatten)
    rw [hdl] at this
    exact this
  refine ⟨es, ds, hrec, hesl, hdsl, hwl, ?_, ?_, ?_⟩
  · unfold bufSlice
    rw [List.drop_take (44 + 20 * numTables) 44 w,
      show 44 + 20 * numTables - 44 = 20 * numTables by omega, hdrop44]
    have := List.take_left es.flatten ds.flatten
    rw [hflat, hesl] at this
    exact this
  · unfold bufSlice
    rw [List.take_length, hw,
      drop_setU32At _ 16 _ (44 + 20 * numTables) (by omega)
        (by rw [length_setU32At _ 8 _ (by omega)]; omega),
      drop_setU32At _ 8 _ (44 + 20 * numTables) (by omega) (by omega)]
    have hassoc : wOFFbytes ++ toU32 flavor ++ toU32 0 ++ toU16 numTables ++
        List.replicate 30 0 ++ es.flatten ++ ds.flatten =
        (wOFFbytes ++ toU32 flavor ++ toU32 0 ++ toU16 numTables ++ List.replicate 30 0) ++
        (es.flatten ++ ds.flatten) := by
      simp [List.append_assoc]
    rw [hassoc,
      show 44 + 20 * numTables = (wOFFbytes ++ toU32 flavor ++ toU32 0 ++ toU16 numTables ++
        List.replicate 30 0).length + 20 * numTables by rw [hdl],
      List.drop_append (20 * numTables)]
    have := List.drop_left es.flatten ds.flatten
    rw [hflat, hesl] at this
    exact this
  · intro j hj
    obtain ⟨offset, length, checksum, r1, r2, r3, r4, r5, r6, r7, r8⟩ := hfields j hj
    constructor
    · rw [hw, readUInt32BE_encoded_entry flavor numTables _ _ es ds hu j 4
        (by omega) (by omega)]
      simpa using r5
    · rw [hw, readUInt32BE_encoded_entry flavor numTables _ _ es ds hu j 8
        (by omega) (by omega)]
      exact r6

/-- C5 amended witness at the concrete one-table input `ttfOneTable`. -/
theorem c5_layout_witness :
    ∃ es ds, encodeLoop deflStub ttfOneTable 1 0 (12 + 1 * 16) = .ok (es, ds) ∧
      es.length = 1 ∧ ds.length = 1 ∧
      woffOneTableEnc.length = 44 + 20 * 1 + sumLens ds ∧
      bufSlice woffOneTableEnc 44 (44 + 20 * 1) = es.flatten ∧
      bufSlice woffOneTableEnc (44 + 20 * 1) woffOneTableEnc.length = ds.flatten ∧
      ∀ j, j < 1 →
        readUInt32BE woffOneTableEnc (44 + 20 * j + 4) =
          some (12 + 1 * 16 + sumLens (ds.take j)) ∧
        readUInt32BE woffOneTableEnc (44 + 20 * j + 8) = some (ds.getD j []).length :=
  c5_layout_amended deflStub ttfOneTable woffOneTableEnc 1 (by decide) (by decide)

/-- C6: every WOFF directory entry the encoder writes satisfies
`compLength ≤ origLength`: the stored payload is the deflated form exactly
when it is strictly smaller than the table data, and the verbatim table
data otherwise; when the table slice is fully inside the input buffer the
verbatim case gives `compLength = origLength`. -/
theorem c6_compLength_le_origLength (deflate : Buffer → Buffer) (ttf w : Buffer)
    (numTables j : Nat) (h : compressWoff deflate ttf = .ok w)
    (hn : readUInt16BE ttf 4 = some numTables) (hj : j < numTables) :
    ∃ cl ol offset,
      readUInt32BE w (44 + 20 * j + 8) = some cl ∧
      readUInt32BE w (44 + 20 * j + 12) = some ol ∧
      cl ≤ ol ∧
      readUInt32BE ttf (12 + j * 16 + 8) = some offset ∧
      readUInt32BE ttf (12 + j * 16 + 12) = some ol ∧
      cl = (storedData deflate (bufSlice ttf offset (offset + ol))).length ∧
      ((deflate (bufSlice ttf offset (offset + ol))).length <
          (bufSlice ttf offset (offset + ol)).length ∧
          cl = (deflate (bufSlice ttf offset (offset + ol))).length ∨
        cl = (bufSlice ttf offset (offset + ol)).length) ∧
      (offset + ol ≤ ttf.length →
        ((deflate (bufSlice ttf offset (offset + ol))).length < ol ∧
            cl = (deflate (bufSlice ttf offset (offset + ol))).length) ∨
          cl = ol) := by
  obtain ⟨n2, flavor, es, ds, hn2, hf, hrec, hb1, hb2, hw⟩ := compressWoff_ok_inv deflate ttf w h
  rw [hn] at hn2
  obtain rfl : numTables = n2 := Option.some.inj hn2
  obtain ⟨hesl, hdsl, hu, hfields⟩ := encodeLoop_spec deflate ttf numTables 0 _ es ds hrec
  obtain ⟨offset, length, checksum, r1, r2, r3, r4, r5, r6, r7, r8⟩ := hfields j hj
  have hsl : (storedData deflate (bufSlice ttf offset (offset + length))).length ≤
      (bufSlice ttf offset (offset + length)).length := by
    unfold storedData
    split <;> omega
  have htdl : (bufSlice ttf offset (offset + length)).length ≤ length :=
    length_bufSlice_le ttf offset length
  refine ⟨(ds.getD j []).length, length, offset, ?_, ?_, ?_, ?_, ?_, ?_, ?_, ?_⟩
  · rw [hw, readUInt32BE_encoded_entry flavor numTables _ _ es ds hu j 8
      (by omega) (by omega)]
    exact r6
  · rw [hw, readUInt32BE_encoded_entry flavor numTables _ _ es ds hu j 12
      (by omega) (by omega)]
    exact r7
  · rw [r4]
    omega
  · simpa using r2
  · simpa using r3
  · rw [r4]
  · rw [r4]
    unfold storedData
    split
    case isTrue hlt => exact Or.inl ⟨hlt, rfl⟩
    case isFalse => exact Or.inr rfl
  · intro hfull
    have hwin : (bufSlice ttf offset (offset + length)).length = length :=
      length_bufSlice_window ttf offset length hfull
    rw [r4]
    unfold storedData
    split
    case isTrue hlt => exact Or.inl ⟨by omega, rfl⟩
    case isFalse => exact Or.inr (by rw [hwin])

/-- C6 witness at the concrete one-table input `ttfOneTable`. -/
theorem c6_compLength_witness :
    ∃ cl ol offset,
      readUInt32BE woffOneTableEnc (44 + 20 * 0 + 8) = some cl ∧
      readUInt32BE woffOneTableEnc (44 + 20 * 0 + 12) = some ol ∧
      cl ≤ ol ∧
      readUInt32BE ttfOneTable (12 + 0 * 16 + 8) = some offset ∧
      readUInt32BE ttfOneTable (12 + 0 * 16 + 12) = some ol ∧
      cl = (storedData deflStub (bufSlice ttfOneTable offset (offset + ol))).length ∧
      ((deflStub (bufSlice ttfOneTable offset (offset + ol))).length <
          (bufSlice ttfOneTable offset (offset + ol)).length ∧
          cl = (deflStub (bufSlice ttfOneTable offset (offset + ol))).length ∨
        cl = (bufSlice ttfOneTable offset (offset + ol)).length) ∧
      (offset + ol ≤ ttfOneTable.length →
        ((deflStub (bufSlice ttfOneTable offset (offset + ol))).length < ol ∧
            cl = (deflStub (bufSlice ttfOneTable offset (offset + ol))).length) ∨
          cl = ol) :=
  c6_compLength_le_origLength deflStub ttfOneTable woffOneTableEnc 1 0
    (by decide) (by decide) (by decide)

/-- C4 (amended): for every WOFF directory entry processed by the decoder
(each entry is the head of some successful run of the decode loop): if
`compLength < origLength` the payload slice is inflated and the inflate
result is used as the table **without any check of its length against
`origLength`** — the step fails only if inflation itself fails; if
`origLength ≤ compLength` (in particular equality) the slice is taken
verbatim and inflate is never consulted (the result is the same for every
inflate function). -/
theorem c4_decode_branches_amended (inflate : Buffer → Option Buffer) (wb : Buffer)
    (n offset ttfOff : Nat) (es ts : List Buffer)
    (h : decodeLoop inflate wb (n + 1) offset ttfOff = .ok (es, ts)) :
    ∃ compLength origLength tableData entry es2 ts2,
      readUInt32BE wb (offset + 8) = some compLength ∧
      readUInt32BE wb (offset + 12) = some origLength ∧
      es = entry :: es2 ∧ ts = tableData :: ts2 ∧
      (compLength < origLength →
        inflate (bufSlice wb (offset + 20) (offset + 20 + compLength)) = some tableData) ∧
      (origLength ≤ compLength →
        tableData = bufSlice wb (offset + 20) (offset + 20 + compLength)) ∧
      decodeLoop inflate wb n (offset + 20 + compLength)
        (ttfOff + origLength + (if origLength % 4 ≠ 0 then 4 - origLength % 4 else 0)) =
        .ok (es2, ts2) := by
  simp only [decodeLoop] at h
  split at h
  case h_2 => exact absurd h (by simp)
  case h_1 compLength origLength hcl hol =>
    split at h
    case h_1 => exact absurd h (by simp)
    case h_2 tableData hdec =>
      split at h
      case isFalse => exact absurd h (by simp)
      case isTrue hguard =>
        split at h
        case h_2 => exact absurd h (by simp)
        case h_1 es2 ts2 hrec =>
          simp only [Except.ok.injEq, Prod.mk.injEq] at h
          obtain ⟨h1, h2⟩ := h
          subst h1; subst h2
          refine ⟨compLength, origLength, tableData, _, es2, ts2, hcl, hol, rfl, rfl,
            ?_, ?_, hrec⟩
          · intro hlt
            unfold decodeTableData at hdec
            rw [if_pos hlt] at hdec
            exact hdec
          · intro hge
            unfold decodeTableData at hdec
            rw [if_neg (by omega)] at hdec
            exact (Option.some.inj hdec).symm

/-- C4 amended witness at the concrete input `woffCompressedEntry` with an
inflate stub returning the 2-byte list `[9,9]`. -/
theorem c4_decode_branches_witness :
    ∃ compLength origLength tableData entry es2 ts2,
      readUInt32BE woffCompressedEntry (44 + 8) = some compLength ∧
      readUInt32BE woffCompressedEntry (44 + 12) = some origLength ∧
      ([[84,69,83,84] ++ toU32 0 ++ toU32 28 ++ toU32 8] : List Buffer) = entry :: es2 ∧
      ([[9,9]] : List Buffer) = tableData :: ts2 ∧
      (compLength < origLength →
        (fun _ => some [9,9]) (bufSlice woffCompressedEntry (44 + 20) (44 + 20 + compLength)) =
          some tableData) ∧
      (origLength ≤ compLength →
        tableData = bufSlice woffCompressedEntry (44 + 20) (44 + 20 + compLength)) ∧
      decodeLoop (fun _ => some [9,9]) woffCompressedEntry 0 (44 + 20 + compLength)
        (28 + origLength + (if origLength % 4 ≠ 0 then 4 - origLength % 4 else 0)) =
        .ok (es2, ts2) :=
  c4_decode_branches_amended (fun _ => some [9,9]) woffCompressedEntry 0 44 28
    ([[84,69,83,84] ++ toU32 0 ++ toU32 28 ++ toU32 8]) [[9,9]] (by decide)

theorem convertLoop_filterMap (deflate : Buffer → Buffer)
    (cw2 : Buffer → Except String Buffer) (ttfBuffer : Buffer) (fs : List OutputFormat) :
    convertLoop deflate cw2 ttfBuffer fs = fs.filterMap (fun f =>
      match (match f with
             | OutputFormat.ttf => Except.ok ttfBuffer
             | OutputFormat.woff => compressWoff deflate ttfBuffer
             | OutputFormat.woff2 => cw2 ttfBuffer) with
      | .ok b => some { format := f, buffer := b, size := b.length }
      | .error _ => none) := by
  induction fs with
  | nil => rfl
  | cons f rest ih =>
    rw [List.filterMap_cons]
    simp only [convertLoop]
    split
    case h_1 b hb =>
      rw [ih]
    case h_2 e hb =>
      rw [ih]

/-- C7 (amended): when normalization succeeds, the orchestrator encodes
every requested output format independently from the same normalized
buffer and **silently skips** formats whose encoder fails (the error is
only logged to the console): the caller receives one `ConvertResult` per
succeeding format, in request order, and no entry — and no recorded
error — for a failing format (`ConvertResult` has no error field). -/
theorem c7_partial_results_amended (deflate : Buffer → Buffer)
    (inflate : Buffer → Option Buffer) (cw2 dw2 o2t : Buffer → Except String Buffer)
    (inputBuffer : Buffer) (fs : List OutputFormat) (results : List ConvertResult)
    (h : convertFont deflate inflate cw2 dw2 o2t inputBuffer FontFormat.ttf fs = .ok results) :
    results = fs.filterMap (fun f =>
      match (match f with
             | OutputFormat.ttf => Except.ok inputBuffer
             | OutputFormat.woff => compressWoff deflate inputBuffer
             | OutputFormat.woff2 => cw2 inputBuffer) with
      | .ok b => some { format := f, buffer := b, size := b.length }
      | .error _ => none) := by
  simp only [convertFont, Except.ok.injEq] at h
  rw [← h, convertLoop_filterMap]

/-- C7 amended witness: requesting `[woff, woff2]` with a failing WOFF2
collaborator yields exactly the `woff` result. -/
theorem c7_partial_results_witness :
    ([{ format := OutputFormat.woff, buffer := woffOneTableEnc, size := 68 }] :
        List ConvertResult) =
      [OutputFormat.woff, OutputFormat.woff2].filterMap (fun f =>
        match (match f with
               | OutputFormat.ttf => Except.ok ttfOneTable
               | OutputFormat.woff => compressWoff deflStub ttfOneTable
               | OutputFormat.woff2 =>
                  (fun _ => Except.error "WOFF2压缩失败") ttfOneTable) with
        | .ok b => some { format := f, buffer := b, size := b.length }
        | .error _ => none) :=
  c7_partial_results_amended deflStub inflNone (fun _ => .error "WOFF2压缩失败")
    (fun _ => .error "x") (fun _ => .error "y") ttfOneTable
    [OutputFormat.woff, OutputFormat.woff2]
    [{ format := OutputFormat.woff, buffer := woffOneTableEnc, size := 68 }] (by decide)

theorem byteAt_take (b : Buffer) (n k : Nat) (h : k < n) :
    byteAt (b.take n) k = byteAt b k := by
  unfold byteAt
  rw [List.getD_eq_getElem?_getD, List.getD_eq_getElem?_getD, List.getElem?_take_of_lt h]

theorem take_setU32At_le (b : Buffer) (off v n : Nat) (hn : n ≤ off)
    (hb : off + 4 ≤ b.length) :
    (setU32At b off v).take n = b.take n := by
  unfold setU32At
  rw [List.take_append_of_le_length (by rw [take_toU32_length b off v hb]; omega),
    List.take_append_of_le_length (by rw [List.length_take]; omega),
    List.take_take, min_eq_left hn]

theorem byteAt_setU32At_lt (b : Buffer) (off v k : Nat) (hk : k < off)
    (hb : off + 4 ≤ b.length) :
    byteAt (setU32At b off v) k = byteAt b k := by
  unfold setU32At
  rw [byteAt_append_left _ _ _ (by rw [take_toU32_length b off v hb]; omega),
    byteAt_append_left _ _ _ (by rw [List.length_take]; omega),
    byteAt_take b off k hk]

/-- C8 (amended): on an SFNT container declaring zero tables the WOFF
encoder does not fail — no `ContainerError::EmptyContainer` exists in the
code — it succeeds, producing the bare 44-byte WOFF header (signature
`wOFF`, `numTables = 0`, no directory, no payloads). -/
theorem c8_zero_tables_amended (deflate : Buffer → Buffer) (ttf : Buffer)
    (h0 : readUInt16BE ttf 4 = some 0) (hL : ttf.length ≤ 0xFFFFFFFF) :
    ∃ w flavor,
      readUInt32BE ttf 0 = some flavor ∧
      compressWoff deflate ttf = .ok w ∧
      w.length = 44 ∧
      bufSlice w 0 4 = wOFFbytes ∧
      readUInt16BE w 12 = some 0 := by
  have hlen : 6 ≤ ttf.length := by
    unfold readUInt16BE at h0
    by_cases hc : 4 + 2 ≤ ttf.length
    · omega
    · rw [if_neg hc] at h0
      exact absurd h0 (by simp)
  have hf : readUInt32BE ttf 0 = some (byteAt ttf 0 * 0x1000000 + byteAt ttf (0 + 1) * 0x10000 +
      byteAt ttf (0 + 2) * 0x100 + byteAt ttf (0 + 3)) := by
    unfold readUInt32BE
    rw [if_pos (by omega)]
  have h44 := woffHeader44_length (byteAt ttf 0 * 0x1000000 + byteAt ttf (0 + 1) * 0x10000 +
      byteAt ttf (0 + 2) * 0x100 + byteAt ttf (0 + 3)) 0
  have hcw : compressWoff deflate ttf = .ok (setU32At (setU32At
      (wOFFbytes ++ toU32 (byteAt ttf 0 * 0x1000000 + byteAt ttf (0 + 1) * 0x10000 +
        byteAt ttf (0 + 2) * 0x100 + byteAt ttf (0 + 3)) ++ toU32 0 ++ toU16 0 ++
        List.replicate 30 0) 8 44) 16 ttf.length) := by
    simp only [compressWoff, h0, hf, encodeLoop]
    simp only [List.flatten_nil, List.append_nil]
    rw [if_pos ⟨by rw [h44]; norm_num, hL⟩, h44]
  have l1 : (setU32At (wOFFbytes ++ toU32 (byteAt ttf 0 * 0x1000000 +
      byteAt ttf (0 + 1) * 0x10000 + byteAt ttf (0 + 2) * 0x100 + byteAt ttf (0 + 3)) ++
      toU32 0 ++ toU16 0 ++ List.replicate 30 0) 8 44).length = 44 := by
    rw [length_setU32At _ 8 44 (by rw [h44]; omega), h44]
  have hb12 : ∀ k, k < 14 →
      byteAt (wOFFbytes ++ toU32 (byteAt ttf 0 * 0x1000000 + byteAt ttf (0 + 1) * 0x10000 +
        byteAt ttf (0 + 2) * 0x100 + byteAt ttf (0 + 3)) ++ toU32 0 ++ toU16 0 ++
        List.replicate 30 0) k =
      byteAt (wOFFbytes ++ toU32 (byteAt ttf 0 * 0x1000000 + byteAt ttf (0 + 1) * 0x10000 +
        byteAt ttf (0 + 2) * 0x100 + byteAt ttf (0 + 3)) ++ toU32 0 ++ toU16 0) k := by
    intro k hk
    exact byteAt_append_left _ _ _ (by simp [wOFFbytes, toU32, toU16]; omega)
  refine ⟨_, _, hf, hcw, ?_, ?_, ?_⟩
  · rw [length_setU32At _ 16 _ (by rw [l1]; omega), l1]
  · unfold bufSlice
    rw [List.drop_zero,
      take_setU32At_le _ 16 _ 4 (by omega) (by rw [l1]; omega),
      take_setU32At_le _ 8 _ 4 (by omega) (by rw [h44]; omega)]
    rw [show wOFFbytes ++ toU32 (byteAt ttf 0 * 0x1000000 + byteAt ttf (0 + 1) * 0x10000 +
        byteAt ttf (0 + 2) * 0x100 + byteAt ttf (0 + 3)) ++ toU32 0 ++ toU16 0 ++
        List.replicate 30 0 =
      wOFFbytes ++ (toU32 (byteAt ttf 0 * 0x1000000 + byteAt ttf (0 + 1) * 0x10000 +
        byteAt ttf (0 + 2) * 0x100 + byteAt ttf (0 + 3)) ++ (toU32 0 ++ (toU16 0 ++
        List.replicate 30 0))) from by simp [List.append_assoc]]
    rw [List.take_append_of_le_length (by simp [wOFFbytes])]
    rfl
  · unfold readUInt16BE
    rw [if_pos (by rw [length_setU32At _ 16 _ (by rw [l1]; omega), l1]; omega)]
    rw [byteAt_setU32At_lt _ 16 _ 12 (by omega) (by rw [l1]; omega),
      byteAt_setU32At_lt _ 16 _ (12 + 1) (by omega) (by rw [l1]; omega),
      byteAt_setU32At_ge _ 8 44 12 (by omega) (by rw [h44]; omega),
      byteAt_setU32At_ge _ 8 44 (12 + 1) (by omega) (by rw [h44]; omega),
      hb12 12 (by omega), hb12 (12 + 1) (by omega)]
    rw [byteAt_append_right _ _ 12 (by simp [wOFFbytes, toU32]),
      byteAt_append_right _ _ (12 + 1) (by simp [wOFFbytes, toU32])]
    norm_num [wOFFbytes, toU32, toU16, byteAt]

/-- C8 amended witness at the concrete zero-table SFNT `ttfEmptyDir`. -/
theorem c8_zero_tables_witness :
    ∃ w flavor,
      readUInt32BE ttfEmptyDir 0 = some flavor ∧
      compressWoff deflStub ttfEmptyDir = .ok w ∧
      w.length = 44 ∧
      bufSlice w 0 4 = wOFFbytes ∧
      readUInt16BE w 12 = some 0 :=
  c8_zero_tables_amended deflStub ttfEmptyDir (by decide) (by decide)
